import Mathlib

/-
Verification development for the geometry-to-grid core in `src/atlite/gis.py`
(plus `src/atlite/config.py`, which only holds configuration constants).

Shallow embedding conventions:

* Python floats are modelled by `ℚ`; the claims under study are about exact
  arithmetic structure (lattice membership, ratios of areas, reversal of
  axes), not about rounding.
* Python exceptions are modelled by `Except PyError`.  A Python float
  division `a / b` raises `ZeroDivisionError` when `b == 0`, so every
  division site of the source carries an explicit zero test in the
  embedding; `np.arange` with a zero step divides by the step in its
  length computation and raises `ZeroDivisionError` as well.  `assert`
  failures are `assertionError`, a lookup of an undefined name is
  `nameError`, and out-of-bounds fancy indexing such as
  `index[[0, -1]]` on an empty axis is `indexError`.
* The shapely geometry kernel is external to the repository.  Geometries
  are modelled as closed axis-aligned rectangles with rational corners
  (`Rect`) — the grid-cell case the module is built for — with the
  kernel operations `area`, `intersects`, `intersection` spelled out.
  An `STRtree` query returns the geometries whose bounding box meets the
  query's bounding box; a rectangle is its own bounding box.
* pyproj is external as well: a `Transformer` is passed to the embedded
  functions as an explicit point map (for vertex-list polygons) or
  geometry map (for rectangles).  `Transformer.from_crs(c, c)` is the
  identity map, which is how the claims with equal CRSs are
  instantiated.
* `pd.date_range(start="1979", end="now", freq=dt)` depends on the wall
  clock, which has no shallow embedding; its output is passed to
  `get_coords` as an explicit oracle list.
-/

/-- Python exceptions that the embedded fragment of `gis.py` can raise. -/
inductive PyError where
  | zeroDivisionError
  | nameError
  | assertionError
  | indexError
deriving DecidableEq

instance {ε α : Type} [DecidableEq ε] [DecidableEq α] :
    DecidableEq (Except ε α) := fun x y =>
  match x, y with
  | .ok a, .ok b =>
    if h : a = b then isTrue (by rw [h]) else isFalse fun hc => h (Except.ok.inj hc)
  | .error a, .error b =>
    if h : a = b then isTrue (by rw [h]) else isFalse fun hc => h (Except.error.inj hc)
  | .ok _, .error _ => isFalse fun hc => Except.noConfusion hc
  | .error _, .ok _ => isFalse fun hc => Except.noConfusion hc

/-- Numpy element types, for the dtype bookkeeping in `regrid`. -/
inductive Dtype where
  | float32
  | float64
  | int32
  | int64
deriving DecidableEq

/-- A point, as handed to a pyproj transformer. -/
abbrev Point : Type := ℚ × ℚ

/-- A polygon as a vertex list, for `reproject_shapes`:
`shapely.ops.transform` applies the coordinate map to every vertex. -/
abbrev PolyV : Type := List Point

/-- A closed axis-aligned rectangle `[x1, x2] × [y1, y2]` — the model of a
shapely polygon used by the indicator-matrix and cell-area embeddings
(grid cells are exactly such rectangles). -/
structure Rect where
  x1 : ℚ
  x2 : ℚ
  y1 : ℚ
  y2 : ℚ
deriving DecidableEq

/-- Shapely polygon area of a rectangle (0 for degenerate input). -/
def Rect.area (r : Rect) : ℚ :=
  max 0 (r.x2 - r.x1) * max 0 (r.y2 - r.y1)

/-- Shapely `intersects` on closed rectangles (touching counts). -/
def Rect.intersects (a b : Rect) : Bool :=
  decide (a.x1 ≤ b.x2 ∧ b.x1 ≤ a.x2 ∧ a.y1 ≤ b.y2 ∧ b.y1 ≤ a.y2)

/-- Shapely `intersection` on rectangles (possibly degenerate). -/
def Rect.inter (a b : Rect) : Rect :=
  ⟨max a.x1 b.x1, min a.x2 b.x2, max a.y1 b.y1, min a.y2 b.y2⟩

/-- The three container shapes `reproject_shapes` dispatches on with
`isinstance`: a `pd.Series` (an index key paired with each geometry), a
`dict`/`OrderedDict`, and any other iterable (consumed into a `list`). -/
inductive ShapesC (κ α : Type) where
  | series : List (κ × α) → ShapesC κ α
  | dict : List (κ × α) → ShapesC κ α
  | iter : List α → ShapesC κ α
deriving DecidableEq

/-- Observer: which of the three `isinstance` branches a collection is in. -/
def ShapesC.kind : ShapesC κ α → ℕ
  | .series _ => 0
  | .dict _ => 1
  | .iter _ => 2

/-- Observer: the index/keys of the container, when it has any. -/
def ShapesC.keys : ShapesC κ α → Option (List κ)
  | .series kvs => some (kvs.map Prod.fst)
  | .dict kvs => some (kvs.map Prod.fst)
  | .iter _ => none

/-- Observer: the geometries of the container, in iteration order. -/
def ShapesC.values : ShapesC κ α → List α
  | .series kvs => kvs.map Prod.snd
  | .dict kvs => kvs.map Prod.snd
  | .iter xs => xs

/-- `_reproject_shape` of `gis.py` for vertex-list polygons:
`shapely.ops.transform(transformer.transform, shape)` maps the
transformer over every vertex. -/
def _reproject_shape (t : Point → Point) : PolyV → PolyV :=
  List.map t

/-- `reproject_shapes(shapes, crs1, crs2)` of `gis.py`.  Building the
transformer from the CRS pair is pyproj (external); `f` is the resulting
per-geometry map `_reproject_shape`.  The three branches mirror the
`isinstance(shapes, pd.Series)` / `isinstance(shapes, dict)` / fallback
dispatch: `shapes.map` keeps the Series index, the dict comprehension
keeps keys and insertion order, `list(map(f, shapes))` yields a list. -/
def reproject_shapes (f : α → α) : ShapesC κ α → ShapesC κ α
  | .series kvs => .series (kvs.map fun kv => (kv.1, f kv.2))
  | .dict kvs => .dict (kvs.map fun kv => (kv.1, f kv.2))
  | .iter xs => .iter (xs.map f)

/-- Python's `enumerate`, also standing for the `idx` dictionary
`dict((id(o), i) for i, o in enumerate(orig))` of
`compute_indicatormatrix` (it pairs each origin geometry with its
position). -/
def pyEnumerate (i : ℕ) : List α → List (ℕ × α)
  | [] => []
  | a :: l => (i, a) :: pyEnumerate (i + 1) l

/-- `STRtree(orig)` followed by `tree.query(d)`: the candidates whose
bounding box meets `d`'s bounding box.  A rectangle is its own bounding
box, so the filter is the rectangle overlap test itself. -/
def strtree_query (pairs : List (ℕ × Rect)) (d : Rect) : List (ℕ × Rect) :=
  pairs.filter fun jo => jo.2.intersects d

/-- One entry `(i, j, I[i,j])` assigned into the `lil_matrix`. -/
abbrev MatEntry : Type := ℕ × ℕ × ℚ

/-- The inner loop of `compute_indicatormatrix` for one destination
polygon `d` at row `i`: for each query candidate `o` that geometrically
intersects `d`, compute `area = d.intersection(o).area` and assign
`indicator[i, j] = area / o.area`.  The division is Python float
division, which raises `ZeroDivisionError` when `o.area == 0`. -/
def rowEntries (i : ℕ) (d : Rect) : List (ℕ × Rect) → Except PyError (List MatEntry)
  | [] => .ok []
  | jo :: rest =>
    if jo.2.intersects d then
      if jo.2.area = 0 then
        .error .zeroDivisionError
      else
        match rowEntries i d rest with
        | .error e => .error e
        | .ok es => .ok ((i, jo.1, (d.inter jo.2).area / jo.2.area) :: es)
    else
      rowEntries i d rest

/-- The outer loop `for i, d in enumerate(dest)` of
`compute_indicatormatrix`, accumulating the assigned entries. -/
def allRows (pairs : List (ℕ × Rect)) (i : ℕ) : List Rect → Except PyError (List MatEntry)
  | [] => .ok []
  | d :: rest =>
    match rowEntries i d (strtree_query pairs d) with
    | .error e => .error e
    | .ok es =>
      match allRows pairs (i + 1) rest with
      | .error e => .error e
      | .ok rs => .ok (es ++ rs)

/-- The `sp.sparse.lil_matrix((len(dest), len(orig)))` result with its
explicitly assigned entries. -/
structure SparseM where
  nrows : ℕ
  ncols : ℕ
  entries : List MatEntry
deriving DecidableEq

/-- `compute_indicatormatrix(orig, dest, orig_crs, dest_crs)` of
`gis.py`.  `T` is the external pyproj transformer from `dest_crs` to
`orig_crs` applied per geometry (the identity when the two CRSs are
equal); `dest` is a plain list, so `reproject_shapes` takes its
list branch.  The `GeoDataFrame` unwrap line is the identity for a
plain collection. -/
def compute_indicatormatrix (T : Rect → Rect) (orig dest : List Rect) :
    Except PyError SparseM :=
  let destProj := (reproject_shapes T (ShapesC.iter dest : ShapesC ℕ Rect)).values
  let pairs := pyEnumerate 0 orig
  match allRows pairs 0 destProj with
  | .error e => .error e
  | .ok es => .ok ⟨destProj.length, orig.length, es⟩

/-- A Python `slice(start, stop)` over numbers. -/
structure NumSlice where
  lo : ℚ
  hi : ℚ
deriving DecidableEq

/-- `slice(*sorted([s.start, s.stop]))`. -/
def sortSlice (s : NumSlice) : NumSlice :=
  ⟨min s.lo s.hi, max s.lo s.hi⟩

/-- xarray/pandas label-based slicing on a coordinate axis: both bounds
inclusive. -/
def label_sel (xs : List ℚ) (s : NumSlice) : List ℚ :=
  xs.filter fun v => decide (s.lo ≤ v ∧ v ≤ s.hi)

/-- Label-based slicing of the time axis (timestamps as integers). -/
def label_sel_time (ts : List ℤ) (lo hi : ℤ) : List ℤ :=
  ts.filter fun v => decide (lo ≤ v ∧ v ≤ hi)

/-- `np.arange(start, stop, step)`: `max(0, ceil((stop-start)/step))`
evenly spaced values from `start`; with a zero step numpy's length
computation divides `stop - start` by the step and raises
`ZeroDivisionError`. -/
def np_arange (start stop step : ℚ) : Except PyError (List ℚ) :=
  if step = 0 then
    .error .zeroDivisionError
  else
    .ok ((List.range ⌈(stop - start) / step⌉.toNat).map fun (k : ℕ) =>
      start + (k : ℚ) * step)

/-- The coordinate dataset built by `get_coords`: `x`, `y`, `time`
variables plus the `lon`/`lat` aliases assigned from `x`/`y`. -/
structure Coords where
  x : List ℚ
  y : List ℚ
  lon : List ℚ
  lat : List ℚ
  time : List ℤ
deriving DecidableEq

/-- `get_coords(x, y, time, dx, dy, dt)` of `gis.py`: sort each requested
slice, lay out the global lattices `np.arange(-180, 180, dx)` and
`np.arange(-90, 90, dy)`, alias `lon`/`lat` to `x`/`y`, and select the
requested sub-ranges by label.  `date_range` is the (external,
wall-clock dependent) output of `pd.date_range(start="1979", end="now",
freq=dt)`, and `tlo, thi` the time slice bounds. -/
def get_coords (x y : NumSlice) (tlo thi : ℤ) (dx dy : ℚ)
    (date_range : List ℤ) : Except PyError Coords :=
  let xs := sortSlice x
  let ys := sortSlice y
  match np_arange (-180) 180 dx with
  | .error e => .error e
  | .ok gx =>
    match np_arange (-90) 90 dy with
    | .error e => .error e
    | .ok gy =>
      let xsel := label_sel gx xs
      let ysel := label_sel gy ys
      .ok ⟨xsel, ysel, xsel, ysel, label_sel_time date_range tlo thi⟩

/-- One `DataArray`: a dtype plus values laid out row-major `[y][x]`. -/
structure DArray where
  dtype : Dtype
  vals : List (List ℚ)
deriving DecidableEq

/-- An `xr.Dataset` with spatial axes `x`, `y` and its data variables. -/
structure DS where
  x : List ℚ
  y : List ℚ
  das : List DArray
deriving DecidableEq

/-- `maybe_swap_spatial_dims(ds, namex, namey)` of `gis.py`: read
`lx, rx = ds.indexes[namex][[0, -1]]` and `ly, uy = ds.indexes[namey]
[[0, -1]]` — fancy indexing that raises `IndexError` when the axis is
empty (a one-label axis is fine: positions 0 and -1 both resolve) —
then reverse the x axis (and the data along it) when `lx > rx`, and
reverse the y axis when `uy < ly`; when no swap is due the dataset is
returned as is. -/
def maybe_swap_spatial_dims (ds : DS) : Except PyError DS :=
  if ds.x.length = 0 ∨ ds.y.length = 0 then
    .error .indexError
  else
    let lx := ds.x.headD 0
    let rx := ds.x.getLastD 0
    let ly := ds.y.headD 0
    let uy := ds.y.getLastD 0
    let ds1 :=
      if rx < lx then
        { ds with x := ds.x.reverse,
                  das := ds.das.map fun da => { da with vals := da.vals.map List.reverse } }
      else ds
    if uy < ly then
      .ok { ds1 with y := ds1.y.reverse,
                     das := ds1.das.map fun da => { da with vals := da.vals.reverse } }
    else .ok ds1

/-- `_as_transform(x, y)` of `gis.py`: the affine transform
`(origin-x, origin-y, dx, dy)` derived from the first/last labels.
Python raises `IndexError` on an empty axis (`x[[0, -1]]`) and
`ZeroDivisionError` on a one-label axis (`float(len(x) - 1)` is zero). -/
def _as_transform (x y : List ℚ) : Except PyError (ℚ × ℚ × ℚ × ℚ) :=
  if x.length = 0 ∨ y.length = 0 then
    .error .indexError
  else if x.length = 1 ∨ y.length = 1 then
    .error .zeroDivisionError
  else
    .ok (x.headD 0, y.getLastD 0,
      (x.getLastD 0 - x.headD 0) / ((x.length : ℚ) - 1),
      (y.getLastD 0 - y.headD 0) / ((y.length : ℚ) - 1))

/-- `regrid(ds, dimx, dimy, **kwargs)` of `gis.py`: normalize the axis
orientation, derive the source and destination affine transforms,
require one homogeneous dtype across the data variables (the `assert`),
and resample every variable onto the `(len(dimy), len(dimx))` grid.
`kernel` is `rio.warp.reproject` (external rasterio); the output buffer
of each variable is `np.empty(..., dtype=src.dtype)`, so the dtype is
carried over. -/
def regrid (kernel : List (List ℚ) → ℕ × ℕ → List (List ℚ)) (ds : DS)
    (dimx dimy : List ℚ) : Except PyError DS :=
  match maybe_swap_spatial_dims ds with
  | .error e => .error e
  | .ok ds =>
  match _as_transform ds.x ds.y with
  | .error e => .error e
  | .ok _src =>
    match _as_transform dimx dimy with
    | .error e => .error e
    | .ok _dst =>
      let dst_shape := (dimy.length, dimx.length)
      let dtypes := (ds.das.map fun da => da.dtype).dedup
      if dtypes.length = 1 then
        .ok { x := dimx, y := dimy,
              das := ds.das.map fun da =>
                { dtype := da.dtype, vals := kernel da.vals dst_shape } }
      else
        .error .assertionError

/-- `np.reshape` of a flat list to `shape` rows by columns. -/
def np_reshape (shape : ℕ × ℕ) (l : List ℚ) : List (List ℚ) :=
  (List.range shape.1).map fun r =>
    (List.range shape.2).map fun c => l.getD (r * shape.2 + c) 0

/-- The slice of a cutout that `grid_cell_areas` reads. -/
structure Cutout where
  crs : ℕ
  y : List ℚ
  dy : ℚ
  grid_cells : List Rect
  shape : ℕ × ℕ
deriving DecidableEq

/-- `grid_cell_areas(cutout)` of `gis.py`.  In the geographic branch
(`cutout.crs == CRS.from_epsg(4326)`) the spherical-cap expression
`R**2 * xu.deg2rad(dx) * abs(...)` reads the name `dx`, which is bound
nowhere — not in the function (only `dy = cutout.dy` is bound), not at
module level — so Python raises `NameError` before any value is
produced.  The other branch reprojects every grid cell to the
equal-area EPSG 3035 (`toLAEA` is the external pyproj transform), sums
planar areas, converts m² to km², and reshapes to the grid layout. -/
def grid_cell_areas (toLAEA : Rect → Rect) (cutout : Cutout) :
    Except PyError (List (List ℚ)) :=
  if cutout.crs = 4326 then
    .error .nameError
  else
    .ok (np_reshape cutout.shape
      (((reproject_shapes toLAEA
          (ShapesC.iter cutout.grid_cells : ShapesC ℕ Rect)).values).map
        fun c => c.area / 1000000))

/-- Approximate equality of two points within tolerance `ε`, the notion
of "within transform round-trip tolerance" used by the spec. -/
def ptApprox (ε : ℚ) (p q : Point) : Prop :=
  |p.1 - q.1| ≤ ε ∧ |p.2 - q.2| ≤ ε

/-- Vertex-by-vertex approximate equality of two polygons. -/
def polyApprox (ε : ℚ) : PolyV → PolyV → Prop :=
  List.Forall₂ (ptApprox ε)

/-- Approximate equality of two shape collections: same container kind,
identical keys, and pairwise approximately equal geometries. -/
def shapesApprox (ε : ℚ) (s u : ShapesC κ PolyV) : Prop :=
  s.kind = u.kind ∧ s.keys = u.keys ∧
    List.Forall₂ (polyApprox ε) s.values u.values

/-! ### Helper lemmas -/

theorem np_arange_eq (start stop step : ℚ) (hstep : step ≠ 0) (n : ℕ)
    (hn : (⌈(stop - start) / step⌉ : ℤ) = n) :
    np_arange start stop step =
      .ok ((List.range n).map fun (k : ℕ) => start + (k : ℚ) * step) := by
  simp [np_arange, hstep, hn]

theorem np_arange_neg_step (start stop step : ℚ) (hstep : step < 0)
    (hss : start < stop) : np_arange start stop step = .ok [] := by
  have hq : (stop - start) / step ≤ 0 :=
    div_nonpos_iff.2 (Or.inl ⟨le_of_lt (sub_pos.2 hss), le_of_lt hstep⟩)
  have hcle : ⌈(stop - start) / step⌉ ≤ 0 := by
    rw [Int.ceil_le]
    exact_mod_cast hq
  have hc : ⌈(stop - start) / step⌉.toNat = 0 := Int.toNat_of_nonpos hcle
  simp [np_arange, ne_of_lt hstep, hc]

theorem mem_np_arange (start stop step : ℚ) (hstep : 0 < step) (xs : List ℚ)
    (h : np_arange start stop step = .ok xs) (v : ℚ) (hv : v ∈ xs) :
    ∃ k : ℕ, v = start + (k : ℚ) * step ∧ start ≤ v ∧ v < stop := by
  have hne : step ≠ 0 := ne_of_gt hstep
  simp only [np_arange, hne, if_false, ite_false] at h
  obtain rfl : ((List.range ⌈(stop - start) / step⌉.toNat).map
      fun (k : ℕ) => start + (k : ℚ) * step) = xs := by
    exact Except.ok.inj h
  obtain ⟨k, hk, rfl⟩ := List.mem_map.1 hv
  refine ⟨k, rfl, le_add_of_nonneg_right (by positivity), ?_⟩
  have hk' : (k : ℤ) < ⌈(stop - start) / step⌉ := by
    have := List.mem_range.1 hk
    omega
  have hkq : (k : ℚ) < (stop - start) / step := by
    have h1 : ((k : ℤ) : ℚ) + 1 ≤ (⌈(stop - start) / step⌉ : ℚ) := by
      exact_mod_cast Int.add_one_le_iff.2 hk'
    have h2 : (⌈(stop - start) / step⌉ : ℚ) < (stop - start) / step + 1 :=
      Int.ceil_lt_add_one _
    push_cast at h1
    linarith
  have : (k : ℚ) * step < stop - start := by
    calc (k : ℚ) * step < ((stop - start) / step) * step :=
          mul_lt_mul_of_pos_right hkq hstep
      _ = stop - start := div_mul_cancel₀ _ hne
  linarith

theorem mem_label_sel (xs : List ℚ) (s : NumSlice) (v : ℚ)
    (hv : v ∈ label_sel xs s) : v ∈ xs := by
  exact (List.mem_filter.1 hv).1

theorem Rect.area_nonneg (r : Rect) : 0 ≤ r.area := by
  unfold Rect.area
  positivity

theorem Rect.inter_area_le_right (d o : Rect) : (d.inter o).area ≤ o.area := by
  have hx : min d.x2 o.x2 - max d.x1 o.x1 ≤ o.x2 - o.x1 :=
    sub_le_sub (min_le_right _ _) (le_max_right _ _)
  have hy : min d.y2 o.y2 - max d.y1 o.y1 ≤ o.y2 - o.y1 :=
    sub_le_sub (min_le_right _ _) (le_max_right _ _)
  show max 0 (min d.x2 o.x2 - max d.x1 o.x1) * max 0 (min d.y2 o.y2 - max d.y1 o.y1) ≤
    max 0 (o.x2 - o.x1) * max 0 (o.y2 - o.y1)
  exact mul_le_mul (max_le_max le_rfl hx) (max_le_max le_rfl hy)
    (le_max_left _ _) (le_max_left _ _)

theorem ratio_unit_interval (d o : Rect) (h : o.area ≠ 0) :
    0 ≤ (d.inter o).area / o.area ∧ (d.inter o).area / o.area ≤ 1 := by
  have hpos : 0 < o.area := lt_of_le_of_ne (Rect.area_nonneg o) (Ne.symm h)
  constructor
  · exact div_nonneg (Rect.area_nonneg _) (le_of_lt hpos)
  · rw [div_le_one hpos]
    exact Rect.inter_area_le_right d o

theorem rowEntries_ok_mem (i : ℕ) (d : Rect) (l : List (ℕ × Rect))
    (es : List MatEntry) (h : rowEntries i d l = .ok es) (e : MatEntry)
    (he : e ∈ es) :
    ∃ jo ∈ l, jo.2.intersects d = true ∧ jo.2.area ≠ 0 ∧
      e = (i, jo.1, (d.inter jo.2).area / jo.2.area) := by
  induction l generalizing es with
  | nil =>
    simp only [rowEntries] at h
    obtain rfl := Except.ok.inj h
    exact absurd he (List.not_mem_nil e)
  | cons jo rest ih =>
    simp only [rowEntries] at h
    by_cases hint : jo.2.intersects d = true
    · rw [if_pos hint] at h
      by_cases hz : jo.2.area = 0
      · rw [if_pos hz] at h
        exact absurd h (by simp)
      · rw [if_neg hz] at h
        cases hrec : rowEntries i d rest with
        | error e' => rw [hrec] at h; exact absurd h (by simp)
        | ok es' =>
          rw [hrec] at h
          obtain rfl := Except.ok.inj h
          rcases List.mem_cons.1 he with rfl | hmem
          · exact ⟨jo, List.mem_cons_self _ _, hint, hz, rfl⟩
          · obtain ⟨jo', hjo', hi', hz', he'⟩ := ih es' hrec hmem
            exact ⟨jo', List.mem_cons_of_mem _ hjo', hi', hz', he'⟩
    · rw [if_neg hint] at h
      obtain ⟨jo', hjo', hi', hz', he'⟩ := ih es h he
      exact ⟨jo', List.mem_cons_of_mem _ hjo', hi', hz', he'⟩

theorem allRows_ok_mem (pairs : List (ℕ × Rect)) (i : ℕ) (ds : List Rect)
    (es : List MatEntry) (h : allRows pairs i ds = .ok es) (e : MatEntry)
    (he : e ∈ es) :
    ∃ i' d, d ∈ ds ∧ ∃ es', rowEntries i' d (strtree_query pairs d) = .ok es' ∧
      e ∈ es' := by
  induction ds generalizing i es with
  | nil =>
    simp only [allRows] at h
    obtain rfl := Except.ok.inj h
    exact absurd he (List.not_mem_nil e)
  | cons d rest ih =>
    simp only [allRows] at h
    cases hrow : rowEntries i d (strtree_query pairs d) with
    | error e' => rw [hrow] at h; exact absurd h (by simp)
    | ok es1 =>
      rw [hrow] at h
      cases hrec : allRows pairs (i + 1) rest with
      | error e' => rw [hrec] at h; exact absurd h (by simp)
      | ok es2 =>
        rw [hrec] at h
        obtain rfl := Except.ok.inj h
        rcases List.mem_append.1 he with h1 | h2
        · exact ⟨i, d, List.mem_cons_self _ _, es1, hrow, h1⟩
        · obtain ⟨i', d', hd', es', hres', he'⟩ := ih (i + 1) es2 hrec h2
          exact ⟨i', d', List.mem_cons_of_mem _ hd', es', hres', he'⟩

theorem rowEntries_error_of_mem (i : ℕ) (d : Rect) (l : List (ℕ × Rect))
    (h : ∃ jo ∈ l, jo.2.intersects d = true ∧ jo.2.area = 0) :
    rowEntries i d l = .error .zeroDivisionError := by
  induction l with
  | nil => obtain ⟨jo, hjo, _⟩ := h; exact absurd hjo (List.not_mem_nil jo)
  | cons jo0 rest ih =>
    obtain ⟨jo, hjo, hint, hz⟩ := h
    rcases List.mem_cons.1 hjo with rfl | hmem
    · simp only [rowEntries, if_pos hint, if_pos hz]
    · simp only [rowEntries]
      by_cases hint0 : jo0.2.intersects d = true
      · rw [if_pos hint0]
        by_cases hz0 : jo0.2.area = 0
        · rw [if_pos hz0]
        · rw [if_neg hz0, ih ⟨jo, hmem, hint, hz⟩]
      · rw [if_neg hint0]
        exact ih ⟨jo, hmem, hint, hz⟩

theorem rowEntries_ok_of_no_degenerate (i : ℕ) (d : Rect) (l : List (ℕ × Rect))
    (h : ∀ jo ∈ l, jo.2.intersects d = true → jo.2.area ≠ 0) :
    ∃ es, rowEntries i d l = .ok es := by
  induction l with
  | nil => exact ⟨[], rfl⟩
  | cons jo0 rest ih =>
    obtain ⟨es', hes'⟩ := ih fun jo hjo => h jo (List.mem_cons_of_mem _ hjo)
    by_cases hint0 : jo0.2.intersects d = true
    · have hz0 : jo0.2.area ≠ 0 := h jo0 (List.mem_cons_self _ _) hint0
      exact ⟨(i, jo0.1, (d.inter jo0.2).area / jo0.2.area) :: es',
        by simp only [rowEntries, if_pos hint0, if_neg hz0, hes']⟩
    · exact ⟨es', by simp only [rowEntries, if_neg hint0, hes']⟩

theorem allRows_error_of_mem (pairs : List (ℕ × Rect)) (i : ℕ) (ds : List Rect)
    (h : ∃ d ∈ ds, ∃ jo ∈ strtree_query pairs d,
      jo.2.intersects d = true ∧ jo.2.area = 0) :
    allRows pairs i ds = .error .zeroDivisionError := by
  induction ds generalizing i with
  | nil => obtain ⟨d, hd, _⟩ := h; exact absurd hd (List.not_mem_nil d)
  | cons d0 rest ih =>
    by_cases h0 : ∃ jo ∈ strtree_query pairs d0, jo.2.intersects d0 = true ∧ jo.2.area = 0
    · simp only [allRows, rowEntries_error_of_mem i d0 _ h0]
    · have hok : ∀ jo ∈ strtree_query pairs d0, jo.2.intersects d0 = true → jo.2.area ≠ 0 := by
        intro jo hjo hint
        intro hz
        exact h0 ⟨jo, hjo, hint, hz⟩
      obtain ⟨es, hes⟩ := rowEntries_ok_of_no_degenerate i d0 _ hok
      obtain ⟨d, hd, hrest⟩ := h
      rcases List.mem_cons.1 hd with rfl | hmem
      · exact absurd hrest h0
      · simp only [allRows, hes, ih (i + 1) ⟨d, hmem, hrest⟩]

theorem mem_pyEnumerate_of_mem (l : List α) (a : α) (h : a ∈ l) (i : ℕ) :
    ∃ j, (j, a) ∈ pyEnumerate i l := by
  induction l generalizing i with
  | nil => exact absurd h (List.not_mem_nil a)
  | cons b rest ih =>
    rcases List.mem_cons.1 h with rfl | hmem
    · exact ⟨i, List.mem_cons_self _ _⟩
    · obtain ⟨j, hj⟩ := ih hmem (i + 1)
      exact ⟨j, List.mem_cons_of_mem _ hj⟩

theorem reproject_iter_values (T : α → α) (l : List α) :
    (reproject_shapes T (ShapesC.iter l : ShapesC ℕ α)).values = l.map T := by
  simp [reproject_shapes, ShapesC.values]

/-! ### Claim theorems -/

/-- Claim C1: for mutually non-overlapping `orig` polygons of non-negative
area, every explicitly stored entry of the matrix returned by
`compute_indicatormatrix` lies in the interval `[0, 1]` (each entry is
the intersection area divided by the origin polygon's area, and an
intersection's area never exceeds the area of either operand).  `T` is
the dest-to-orig transformer, the identity when the CRSs coincide. -/
theorem indicatormatrix_entries_unit_interval (T : Rect → Rect)
    (orig dest : List Rect)
    (hdisj : orig.Pairwise fun a b => (a.inter b).area = 0)
    (hnn : ∀ o ∈ orig, 0 ≤ o.area)
    (M : SparseM) (hM : compute_indicatormatrix T orig dest = .ok M) :
    ∀ e ∈ M.entries, 0 ≤ e.2.2 ∧ e.2.2 ≤ 1 := by
  intro e he
  simp only [compute_indicatormatrix] at hM
  cases hall : allRows (pyEnumerate 0 orig) 0
      ((reproject_shapes T (ShapesC.iter dest : ShapesC ℕ Rect)).values) with
  | error e' => rw [hall] at hM; exact absurd hM (by simp)
  | ok es =>
    rw [hall] at hM
    obtain rfl := Except.ok.inj hM
    obtain ⟨i', d, hd, es', hrow, he'⟩ := allRows_ok_mem _ _ _ _ hall e he
    obtain ⟨jo, hjo, hint, hz, rfl⟩ := rowEntries_ok_mem _ _ _ _ hrow e he'
    exact ratio_unit_interval d jo.2 hz

theorem indicatormatrix_entries_unit_interval_witness :
    (0 : ℚ) ≤ 1 / 2 ∧ (1 / 2 : ℚ) ≤ 1 := by
  have h := indicatormatrix_entries_unit_interval id
    [⟨0, 1, 0, 1⟩, ⟨1, 2, 0, 1⟩, ⟨2, 3, 0, 1⟩] [⟨1/2, 5/2, 0, 1⟩]
    (by norm_num [List.pairwise_cons, Rect.inter, Rect.area])
    (fun o _ => Rect.area_nonneg o)
    ⟨1, 3, [(0, 0, 1/2), (0, 1, 1), (0, 2, 1/2)]⟩
    (by norm_num [compute_indicatormatrix, allRows, rowEntries, strtree_query,
      pyEnumerate, reproject_shapes, ShapesC.values, Rect.intersects, Rect.area,
      Rect.inter])
  exact h (0, 0, 1/2) (by simp)

/-- Claim C2: for the three unit squares tiling `[0,3] × [0,1]` as `orig`
and the single square `[1/2, 5/2] × [0,1]` as `dest` (equal CRSs, so the
transformer is the identity), `compute_indicatormatrix` returns the 1×3
matrix whose single row is `[1/2, 1, 1/2]`. -/
theorem indicatormatrix_three_squares_row :
    compute_indicatormatrix id
      [⟨0, 1, 0, 1⟩, ⟨1, 2, 0, 1⟩, ⟨2, 3, 0, 1⟩] [⟨1/2, 5/2, 0, 1⟩] =
      .ok ⟨1, 3, [(0, 0, 1/2), (0, 1, 1), (0, 2, 1/2)]⟩ := by
  norm_num [compute_indicatormatrix, allRows, rowEntries, strtree_query,
    pyEnumerate, reproject_shapes, ShapesC.values, Rect.intersects, Rect.area,
    Rect.inter]

/-- Claim C8 (counterexample): a zero-area origin polygon (the segment
`x = 0`, `0 ≤ y ≤ 1`) intersecting the destination square makes
`compute_indicatormatrix` raise Python's `ZeroDivisionError` — the code
defines no `DegeneratePolygonError` and raises none. -/
theorem indicatormatrix_zero_area_zerodivision :
    compute_indicatormatrix id [⟨0, 0, 0, 1⟩] [⟨-1, 1, -1, 2⟩] =
      .error .zeroDivisionError := by
  norm_num [compute_indicatormatrix, allRows, rowEntries, strtree_query,
    pyEnumerate, reproject_shapes, ShapesC.values, Rect.intersects, Rect.area,
    Rect.inter]

/-- Claim C8 (amended): whenever some origin polygon of zero area
intersects a (reprojected) destination polygon, `compute_indicatormatrix`
aborts with `ZeroDivisionError` — the Python float division
`area / o.area` with a zero denominator — so no matrix, and in
particular no NaN or infinite entry, is ever returned. -/
theorem indicatormatrix_zero_area_raises (T : Rect → Rect)
    (orig dest : List Rect)
    (h : ∃ o ∈ orig, o.area = 0 ∧ ∃ d ∈ dest.map T, o.intersects d = true) :
    compute_indicatormatrix T orig dest = .error .zeroDivisionError := by
  obtain ⟨o, ho, hz, d, hd, hint⟩ := h
  obtain ⟨j, hj⟩ := mem_pyEnumerate_of_mem orig o ho 0
  have hq : (j, o) ∈ strtree_query (pyEnumerate 0 orig) d :=
    List.mem_filter.2 ⟨hj, hint⟩
  have hall := allRows_error_of_mem (pyEnumerate 0 orig) 0 (dest.map T)
    ⟨d, hd, (j, o), hq, hint, hz⟩
  simp only [compute_indicatormatrix, reproject_iter_values, hall]

theorem indicatormatrix_zero_area_raises_witness :
    compute_indicatormatrix id [⟨1, 1, 0, 2⟩] [⟨0, 2, 0, 2⟩] =
      .error .zeroDivisionError := by
  apply indicatormatrix_zero_area_raises
  exact ⟨⟨1, 1, 0, 2⟩, by simp, by norm_num [Rect.area],
    ⟨0, 2, 0, 2⟩, by simp, by norm_num [Rect.intersects]⟩

theorem forall2_map_map (P : β → β → Prop) (f g : α → β) (l : List α)
    (h : ∀ a ∈ l, P (f a) (g a)) : List.Forall₂ P (l.map f) (l.map g) := by
  induction l with
  | nil => simp
  | cons a rest ih =>
    exact List.Forall₂.cons (h a (List.mem_cons_self _ _))
      (ih fun b hb => h b (List.mem_cons_of_mem _ hb))

theorem forall2_map_left (P : α → α → Prop) (g : α → α) (l : List α)
    (h : ∀ a ∈ l, P (g a) a) : List.Forall₂ P (l.map g) l := by
  have := forall2_map_map P g id l h
  simpa using this

/-- Claim C4: `reproject_shapes` preserves the container shape of its
input: the `isinstance` branch taken is the same (sequence to sequence,
mapping to mapping, other iterable to list), the keys/index are
identical and in the same order, every value is the reprojection of the
original value, and the element count is unchanged.  (The embedding is
purely functional, so the input collection itself is never mutated.) -/
theorem reproject_shapes_container_shape {κ : Type} (t : Point → Point)
    (s : ShapesC κ PolyV) :
    (reproject_shapes (_reproject_shape t) s).kind = s.kind ∧
    (reproject_shapes (_reproject_shape t) s).keys = s.keys ∧
    (reproject_shapes (_reproject_shape t) s).values
      = s.values.map (_reproject_shape t) ∧
    (reproject_shapes (_reproject_shape t) s).values.length
      = s.values.length := by
  cases s <;>
    simp [reproject_shapes, ShapesC.kind, ShapesC.keys, ShapesC.values,
      List.map_map, Function.comp]

/-- Claim C5: reprojecting from CRS `A` to `B` and back, with point
transformers `t1` and `t2` whose composition is within the round-trip
tolerance `ε` of the identity on every point, yields a collection of
the same shape whose geometries agree with the originals vertex by
vertex within `ε`. -/
theorem reproject_shapes_roundtrip {κ : Type} (t1 t2 : Point → Point) (ε : ℚ)
    (h : ∀ p : Point, ptApprox ε (t2 (t1 p)) p) (s : ShapesC κ PolyV) :
    shapesApprox ε (reproject_shapes (_reproject_shape t2)
      (reproject_shapes (_reproject_shape t1) s)) s := by
  have hpoly : ∀ sh : PolyV,
      polyApprox ε (_reproject_shape t2 (_reproject_shape t1 sh)) sh := by
    intro sh
    unfold _reproject_shape polyApprox
    rw [List.map_map]
    exact forall2_map_left _ _ _ fun p _ => h p
  refine ⟨?_, ?_, ?_⟩
  · cases s <;> rfl
  · cases s <;> simp [reproject_shapes, ShapesC.keys, List.map_map, Function.comp]
  · cases s with
    | series kvs =>
      simp only [reproject_shapes, ShapesC.values, List.map_map]
      exact forall2_map_map _ _ _ _ fun kv _ => hpoly kv.2
    | dict kvs =>
      simp only [reproject_shapes, ShapesC.values, List.map_map]
      exact forall2_map_map _ _ _ _ fun kv _ => hpoly kv.2
    | iter xs =>
      simp only [reproject_shapes, ShapesC.values, List.map_map]
      exact forall2_map_left _ _ _ fun sh _ => hpoly sh

theorem reproject_shapes_roundtrip_witness :
    shapesApprox 0 (reproject_shapes (_reproject_shape id)
      (reproject_shapes (_reproject_shape id)
        (ShapesC.series [((0 : ℕ), [((1 : ℚ), (2 : ℚ))])])))
      (ShapesC.series [((0 : ℕ), [((1 : ℚ), (2 : ℚ))])]) :=
  reproject_shapes_roundtrip id id 0
    (fun p => ⟨by simp, by simp⟩) (ShapesC.series [(0, [(1, 2)])])

theorem getLastD_cons_eq (a d : ℚ) (l : List ℚ) :
    (a :: l).getLastD d = l.getLastD a := by
  cases l <;> simp [List.getLastD]

theorem sorted_lt_not_lastD_lt_headD (l : List ℚ) (h : l.Sorted (· < ·)) :
    ¬ (l.getLastD 0 < l.headD 0) := by
  cases l with
  | nil => simp
  | cons a rest =>
    have hlast : (a :: rest).getLastD 0 = (a :: rest).getLast (by simp) := by
      simp [List.getLastD_eq_getLast?, List.getLast?_eq_getLast]
    rw [hlast, List.headD_cons]
    rcases List.mem_cons.1 (List.getLast_mem (l := a :: rest) (by simp)) with
      heq | hmem
    · rw [heq]; exact lt_irrefl a
    · exact not_lt_of_gt ((List.pairwise_cons.1 h).1 _ hmem)

theorem sorted_gt_lastD_lt_headD (l : List ℚ) (h : l.Sorted (· > ·))
    (h2 : 2 ≤ l.length) : l.getLastD 0 < l.headD 0 := by
  cases l with
  | nil => simp at h2
  | cons a rest =>
    cases rest with
    | nil => simp at h2
    | cons b rest' =>
      rw [List.headD_cons, getLastD_cons_eq]
      have hlast : (b :: rest').getLastD a = (b :: rest').getLast (by simp) := by
        simp [List.getLastD_eq_getLast?, List.getLast?_eq_getLast]
      rw [hlast]
      exact (List.pairwise_cons.1 h).1 _ (List.getLast_mem (by simp))

theorem short_sorted_lt (l : List ℚ) (h : l.length ≤ 1) : l.Sorted (· < ·) := by
  cases l with
  | nil => simp
  | cons a rest => cases rest with
    | nil => simp
    | cons b rest' => simp at h

theorem sorted_gt_reverse_lt (l : List ℚ) (h : l.Sorted (· > ·)) :
    l.reverse.Sorted (· < ·) := by
  rw [List.Sorted, List.pairwise_reverse]
  exact h

theorem axis_ascending_after_swap (l : List ℚ)
    (h : l.Sorted (· < ·) ∨ l.Sorted (· > ·)) :
    (if l.getLastD 0 < l.headD 0 then l.reverse else l).Sorted (· < ·) := by
  rcases h with h | h
  · rw [if_neg (sorted_lt_not_lastD_lt_headD l h)]
    exact h
  · by_cases hc : l.getLastD 0 < l.headD 0
    · rw [if_pos hc]
      exact sorted_gt_reverse_lt l h
    · rw [if_neg hc]
      by_cases h2 : 2 ≤ l.length
      · exact absurd (sorted_gt_lastD_lt_headD l h h2) hc
      · exact short_sorted_lt l (by omega)

theorem maybe_swap_empty_axis (ds : DS) (h : ds.x = [] ∨ ds.y = []) :
    maybe_swap_spatial_dims ds = .error .indexError := by
  have hlen : ds.x.length = 0 ∨ ds.y.length = 0 := by
    rcases h with h | h <;> simp [h]
  simp only [maybe_swap_spatial_dims]
  rw [if_pos hlen]

theorem maybe_swap_eq_ok (ds : DS) (hx : ds.x ≠ []) (hy : ds.y ≠ []) :
    maybe_swap_spatial_dims ds = .ok
      ⟨(if ds.x.getLastD 0 < ds.x.headD 0 then ds.x.reverse else ds.x),
       (if ds.y.getLastD 0 < ds.y.headD 0 then ds.y.reverse else ds.y),
       ds.das.map fun da => ⟨da.dtype,
         if ds.y.getLastD 0 < ds.y.headD 0 then
           (if ds.x.getLastD 0 < ds.x.headD 0 then da.vals.map List.reverse
            else da.vals).reverse
         else
           (if ds.x.getLastD 0 < ds.x.headD 0 then da.vals.map List.reverse
            else da.vals)⟩⟩ := by
  have hlen : ¬ (ds.x.length = 0 ∨ ds.y.length = 0) := by
    simp [List.length_eq_zero, hx, hy]
  have heta : (fun da : DArray => (⟨da.dtype, da.vals⟩ : DArray)) = id := rfl
  simp only [maybe_swap_spatial_dims]
  rw [if_neg hlen]
  split_ifs <;> simp [List.map_map, Function.comp, heta, List.map_id]

/-- Claim C6 (counterexample): a dataset whose y axis is stored
increasing (`[0, 1]`) is returned unchanged by
`maybe_swap_spatial_dims` — the y axis is not reversed to descending
order, contrary to the claim that an increasing y axis is reversed. -/
theorem maybe_swap_y_increasing_unchanged :
    maybe_swap_spatial_dims
        ⟨[0, 1], [0, 1], [⟨.float64, [[1, 2], [3, 4]]⟩]⟩ =
      .ok ⟨[0, 1], [0, 1], [⟨.float64, [[1, 2], [3, 4]]⟩]⟩ ∧
    ([0, 1] : List ℚ) ≠ ([0, 1] : List ℚ).reverse := by
  constructor
  · decide
  · decide

/-- Claim C6 (amended): on a dataset whose x or y axis is empty,
`maybe_swap_spatial_dims` raises `IndexError` (from the fancy indexing
`ds.indexes[name][[0, -1]]`); otherwise it reverses the x axis exactly
when x is stored decreasing (first label greater than last) and the y
axis exactly when y is stored decreasing (last label less than first),
reversing the data of every variable along each swapped axis (columns
within each row for x, the row order for y), so that after the call
both the x and the y coordinates are ascending; a dataset whose axes
are both already ascending is returned unchanged. -/
theorem maybe_swap_orients_axes_ascending (ds : DS)
    (hx : ds.x.Sorted (· < ·) ∨ ds.x.Sorted (· > ·))
    (hy : ds.y.Sorted (· < ·) ∨ ds.y.Sorted (· > ·)) :
    (ds.x = [] ∨ ds.y = [] →
      maybe_swap_spatial_dims ds = .error .indexError) ∧
    (ds.x ≠ [] → ds.y ≠ [] →
      ∃ out, maybe_swap_spatial_dims ds = .ok out ∧
        out.x = (if ds.x.getLastD 0 < ds.x.headD 0 then ds.x.reverse
                 else ds.x) ∧
        out.y = (if ds.y.getLastD 0 < ds.y.headD 0 then ds.y.reverse
                 else ds.y) ∧
        out.das = (ds.das.map fun da => ⟨da.dtype,
          if ds.y.getLastD 0 < ds.y.headD 0 then
            (if ds.x.getLastD 0 < ds.x.headD 0 then da.vals.map List.reverse
             else da.vals).reverse
          else
            (if ds.x.getLastD 0 < ds.x.headD 0 then da.vals.map List.reverse
             else da.vals)⟩) ∧
        out.x.Sorted (· < ·) ∧
        out.y.Sorted (· < ·) ∧
        (ds.x.Sorted (· < ·) → ds.y.Sorted (· < ·) → out = ds)) := by
  constructor
  · exact maybe_swap_empty_axis ds
  · intro hxne hyne
    refine ⟨_, maybe_swap_eq_ok ds hxne hyne, rfl, rfl, rfl, ?_, ?_, ?_⟩
    · exact axis_ascending_after_swap ds.x hx
    · exact axis_ascending_after_swap ds.y hy
    · intro hxa hya
      simp only [if_neg (sorted_lt_not_lastD_lt_headD ds.x hxa),
        if_neg (sorted_lt_not_lastD_lt_headD ds.y hya)]
      show (⟨ds.x, ds.y, ds.das.map id⟩ : DS) = ds
      rw [List.map_id]

theorem maybe_swap_orients_axes_ascending_witness :
    ∃ out, maybe_swap_spatial_dims
        ⟨[(1 : ℚ), 0], [(0 : ℚ), 1], [⟨.float64, [[1, 2], [3, 4]]⟩]⟩ =
        .ok out ∧ out.x.Sorted (· < ·) ∧ out.y.Sorted (· < ·) := by
  obtain ⟨out, h1, _, _, _, h5, h6, _⟩ :=
    (maybe_swap_orients_axes_ascending
      ⟨[1, 0], [0, 1], [⟨.float64, [[1, 2], [3, 4]]⟩]⟩
      (Or.inr (by decide)) (Or.inl (by decide))).2 (by decide) (by decide)
  exact ⟨out, h1, h5, h6⟩

theorem get_coords_ok (x y : NumSlice) (tlo thi : ℤ) (dx dy : ℚ)
    (dr : List ℤ) (gx gy : List ℚ) (hgx : np_arange (-180) 180 dx = .ok gx)
    (hgy : np_arange (-90) 90 dy = .ok gy) :
    get_coords x y tlo thi dx dy dr = .ok
      ⟨label_sel gx (sortSlice x), label_sel gy (sortSlice y),
       label_sel gx (sortSlice x), label_sel gy (sortSlice y),
       label_sel_time dr tlo thi⟩ := by
  simp only [get_coords, hgx, hgy]

theorem np_arange_is_ok (start stop step : ℚ) (h : step ≠ 0) :
    ∃ l, np_arange start stop step = .ok l :=
  ⟨(List.range ⌈(stop - start) / step⌉.toNat).map
      fun (k : ℕ) => start + (k : ℚ) * step,
    by simp [np_arange, h]⟩

/-- Claim C7 (counterexample): `get_coords` with `dx = -1 < 0` does not
fail — it silently returns a dataset whose x axis is the empty
coordinate list (`np.arange` with a negative step over the ascending
global domain is empty); no `RangeError` exists in the code. -/
theorem get_coords_negative_dx_empty_axis :
    (get_coords ⟨-10, 10⟩ ⟨-10, 10⟩ 0 0 (-1) 90 []).map Coords.x = .ok [] := by
  have hgx : np_arange (-180) 180 (-1) = .ok [] :=
    np_arange_neg_step _ _ _ (by norm_num) (by norm_num)
  obtain ⟨gy, hgy⟩ := np_arange_is_ok (-90) 90 90 (by norm_num)
  rw [get_coords_ok _ _ _ _ _ _ _ _ _ hgx hgy]
  simp [label_sel, Except.map]

/-- Claim C7 (amended): `get_coords` performs no validation and defines
no `RangeError`.  A zero `dx` or `dy` raises `ZeroDivisionError` from
the division by the step inside `np.arange`'s length computation; for
any other steps the call succeeds; a negative `dx` (resp. `dy`)
silently yields an empty x (resp. y) axis; and a requested x (resp. y)
range lying entirely outside the canonical domain `[-180, 180)` (resp.
`[-90, 90)`) silently yields an empty selection on that axis. -/
theorem get_coords_no_range_validation (x y : NumSlice) (tlo thi : ℤ)
    (dx dy : ℚ) (dr : List ℤ) :
    (dx = 0 →
      get_coords x y tlo thi dx dy dr = .error .zeroDivisionError) ∧
    (dx ≠ 0 → dy = 0 →
      get_coords x y tlo thi dx dy dr = .error .zeroDivisionError) ∧
    (dx ≠ 0 → dy ≠ 0 → ∃ c, get_coords x y tlo thi dx dy dr = .ok c) ∧
    (dx < 0 → dy ≠ 0 →
      (get_coords x y tlo thi dx dy dr).map Coords.x = .ok []) ∧
    (dx ≠ 0 → dy < 0 →
      (get_coords x y tlo thi dx dy dr).map Coords.y = .ok []) ∧
    (dx ≠ 0 → dy ≠ 0 → (max x.lo x.hi < -180 ∨ 180 ≤ min x.lo x.hi) →
      (get_coords x y tlo thi dx dy dr).map Coords.x = .ok []) ∧
    (dx ≠ 0 → dy ≠ 0 → (max y.lo y.hi < -90 ∨ 90 ≤ min y.lo y.hi) →
      (get_coords x y tlo thi dx dy dr).map Coords.y = .ok []) := by
  refine ⟨?_, ?_, ?_, ?_, ?_, ?_, ?_⟩
  · intro h0
    simp [get_coords, np_arange, h0]
  · intro hdx h0
    obtain ⟨gx, hgx⟩ := np_arange_is_ok (-180) 180 dx hdx
    have hgy : np_arange (-90) 90 dy = .error .zeroDivisionError := by
      simp [np_arange, h0]
    simp only [get_coords, hgx, hgy]
  · intro hdx hdy
    obtain ⟨gx, hgx⟩ := np_arange_is_ok (-180) 180 dx hdx
    obtain ⟨gy, hgy⟩ := np_arange_is_ok (-90) 90 dy hdy
    exact ⟨_, get_coords_ok _ _ _ _ _ _ _ _ _ hgx hgy⟩
  · intro hdx hdy
    have hgx : np_arange (-180) 180 dx = .ok [] :=
      np_arange_neg_step _ _ _ hdx (by norm_num)
    obtain ⟨gy, hgy⟩ := np_arange_is_ok (-90) 90 dy hdy
    rw [get_coords_ok _ _ _ _ _ _ _ _ _ hgx hgy]
    simp [label_sel, Except.map]
  · intro hdx hdy
    obtain ⟨gx, hgx⟩ := np_arange_is_ok (-180) 180 dx hdx
    have hgy : np_arange (-90) 90 dy = .ok [] :=
      np_arange_neg_step _ _ _ hdy (by norm_num)
    rw [get_coords_ok _ _ _ _ _ _ _ _ _ hgx hgy]
    simp [label_sel, Except.map]
  · intro hdx hdy hout
    obtain ⟨gx, hgx⟩ := np_arange_is_ok (-180) 180 dx hdx
    obtain ⟨gy, hgy⟩ := np_arange_is_ok (-90) 90 dy hdy
    rw [get_coords_ok _ _ _ _ _ _ _ _ _ hgx hgy]
    have hsel : label_sel gx (sortSlice x) = [] := by
      rw [label_sel, List.filter_eq_nil_iff]
      intro v hv
      rcases lt_trichotomy dx 0 with hneg | h0 | hpos
      · rw [np_arange_neg_step _ _ _ hneg (by norm_num)] at hgx
        obtain rfl := Except.ok.inj hgx
        exact absurd hv (List.not_mem_nil v)
      · exact absurd h0 hdx
      · obtain ⟨k, _, hge, hlt⟩ := mem_np_arange _ _ _ hpos gx hgx v hv
        simp only [sortSlice, decide_eq_true_eq, not_and, not_le]
        rcases hout with hhi | hlo
        · intro _
          exact lt_of_lt_of_le hhi hge
        · intro hle
          exact absurd hle (not_le.2 (lt_of_lt_of_le hlt hlo))
    rw [hsel]
    simp [Except.map]
  · intro hdx hdy hout
    obtain ⟨gx, hgx⟩ := np_arange_is_ok (-180) 180 dx hdx
    obtain ⟨gy, hgy⟩ := np_arange_is_ok (-90) 90 dy hdy
    rw [get_coords_ok _ _ _ _ _ _ _ _ _ hgx hgy]
    have hsel : label_sel gy (sortSlice y) = [] := by
      rw [label_sel, List.filter_eq_nil_iff]
      intro v hv
      rcases lt_trichotomy dy 0 with hneg | h0 | hpos
      · rw [np_arange_neg_step _ _ _ hneg (by norm_num)] at hgy
        obtain rfl := Except.ok.inj hgy
        exact absurd hv (List.not_mem_nil v)
      · exact absurd h0 hdy
      · obtain ⟨k, _, hge, hlt⟩ := mem_np_arange _ _ _ hpos gy hgy v hv
        simp only [sortSlice, decide_eq_true_eq, not_and, not_le]
        rcases hout with hhi | hlo
        · intro _
          exact lt_of_lt_of_le hhi hge
        · intro hle
          exact absurd hle (not_le.2 (lt_of_lt_of_le hlt hlo))
    rw [hsel]
    simp [Except.map]

theorem get_coords_no_range_validation_witness :
    (get_coords ⟨200, 300⟩ ⟨0, 10⟩ 0 0 1 90 []).map Coords.x = .ok [] :=
  (get_coords_no_range_validation ⟨200, 300⟩ ⟨0, 10⟩ 0 0 1 90 []).2.2.2.2.2.1
    (by norm_num) (by norm_num) (Or.inr (by norm_num))

/-- Claim C10: for positive steps, every x coordinate returned by
`get_coords` is `-180 + k * dx` for a natural `k` and is strictly below
180, and every y coordinate is `-90 + k * dy` and strictly below 90:
the global lattice is half-open, so the canonical upper bounds 180 and
90 never appear, whatever sub-range the caller requests. -/
theorem get_coords_global_lattice_half_open (x y : NumSlice) (tlo thi : ℤ)
    (dx dy : ℚ) (dr : List ℤ) (hdx : 0 < dx) (hdy : 0 < dy)
    (c : Coords) (hc : get_coords x y tlo thi dx dy dr = .ok c) :
    (∀ v ∈ c.x, (∃ k : ℕ, v = -180 + (k : ℚ) * dx) ∧ v < 180) ∧
    (∀ v ∈ c.y, (∃ k : ℕ, v = -90 + (k : ℚ) * dy) ∧ v < 90) := by
  obtain ⟨gx, hgx⟩ := np_arange_is_ok (-180) 180 dx (ne_of_gt hdx)
  obtain ⟨gy, hgy⟩ := np_arange_is_ok (-90) 90 dy (ne_of_gt hdy)
  rw [get_coords_ok _ _ _ _ _ _ _ _ _ hgx hgy] at hc
  obtain rfl := Except.ok.inj hc
  constructor
  · intro v hv
    obtain ⟨k, hk, _, hlt⟩ :=
      mem_np_arange _ _ _ hdx gx hgx v (mem_label_sel _ _ _ hv)
    exact ⟨⟨k, hk⟩, hlt⟩
  · intro v hv
    obtain ⟨k, hk, _, hlt⟩ :=
      mem_np_arange _ _ _ hdy gy hgy v (mem_label_sel _ _ _ hv)
    exact ⟨⟨k, hk⟩, hlt⟩

theorem get_coords_global_lattice_half_open_witness :
    (∃ k : ℕ, (-90 : ℚ) = -180 + (k : ℚ) * 90) ∧ ((-90 : ℚ) < 180) := by
  have hgx : np_arange (-180) 180 90 = .ok [-180, -90, 0, 90] := by
    rw [np_arange_eq _ _ _ (by norm_num) 4 (by norm_num)]
    norm_num [List.range_succ]
  have hgy : np_arange (-90) 90 90 = .ok [-90, 0] := by
    rw [np_arange_eq _ _ _ (by norm_num) 2 (by norm_num)]
    norm_num [List.range_succ]
  have hc := get_coords_ok ⟨-180, 180⟩ ⟨-90, 90⟩ 0 0 90 90 [] _ _ hgx hgy
  refine (get_coords_global_lattice_half_open ⟨-180, 180⟩ ⟨-90, 90⟩ 0 0 90 90 []
    (by norm_num) (by norm_num) _ hc).1 (-90) ?_
  norm_num [label_sel, sortSlice, List.filter]

theorem maybe_swap_ok_x_length (ds out : DS)
    (h : maybe_swap_spatial_dims ds = .ok out) :
    out.x.length = ds.x.length := by
  simp only [maybe_swap_spatial_dims] at h
  split_ifs at h <;> (obtain rfl := Except.ok.inj h; simp)

theorem maybe_swap_ok_y_length (ds out : DS)
    (h : maybe_swap_spatial_dims ds = .ok out) :
    out.y.length = ds.y.length := by
  simp only [maybe_swap_spatial_dims] at h
  split_ifs at h <;> (obtain rfl := Except.ok.inj h; simp)

theorem maybe_swap_ok_dtypes (ds out : DS)
    (h : maybe_swap_spatial_dims ds = .ok out) :
    out.das.map (fun da => da.dtype) = ds.das.map fun da => da.dtype := by
  simp only [maybe_swap_spatial_dims] at h
  split_ifs at h <;> (obtain rfl := Except.ok.inj h; simp [List.map_map, Function.comp])

theorem _as_transform_is_ok (x y : List ℚ) (hx : 2 ≤ x.length)
    (hy : 2 ≤ y.length) : ∃ t, _as_transform x y = .ok t := by
  have h1 : ¬(x.length = 0 ∨ y.length = 0) := by omega
  have h2 : ¬(x.length = 1 ∨ y.length = 1) := by omega
  exact ⟨_, by rw [_as_transform, if_neg h1, if_neg h2]⟩

theorem map_dtype_dedup_const (l : List DArray) (t : Dtype)
    (h : ∀ da ∈ l, da.dtype = t) (hne : l ≠ []) :
    (l.map fun da => da.dtype).dedup = [t] := by
  induction l with
  | nil => exact absurd rfl hne
  | cons a rest ih =>
    cases rest with
    | nil => simp [h a (List.mem_cons_self _ _)]
    | cons b rest' =>
      rw [List.map_cons, List.dedup_cons_of_mem, ih
        (fun da hda => h da (List.mem_cons_of_mem _ hda)) (by simp)]
      rw [h a (List.mem_cons_self _ _)]
      simp [h b (List.mem_cons_of_mem _ (List.mem_cons_self _ _))]

/-- Claim C9 (counterexample): regridding a dataset holding a `float32`
and a `float64` variable fails with `AssertionError` from the
`assert len(dtypes) == 1` statement — the code defines no
`HeterogeneousTypeError`. -/
theorem regrid_mixed_dtype_assertion :
    regrid (fun v _ => v)
      ⟨[0, 1], [0, 1],
        [⟨.float32, [[0, 0], [0, 0]]⟩, ⟨.float64, [[0, 0], [0, 0]]⟩]⟩
      [0, 1] [0, 1] = .error .assertionError := rfl

/-- Claim C9 (amended): for datasets whose spatial axes (and destination
axes) hold at least two labels, `regrid` fails with `AssertionError`
(the `assert len(dtypes) == 1`), producing no resampled output,
whenever the data variables do not all share exactly one element dtype;
when they all share one dtype, it succeeds and every output variable
carries that same dtype. -/
theorem regrid_dtype_homogeneity
    (kernel : List (List ℚ) → ℕ × ℕ → List (List ℚ)) (ds : DS)
    (dimx dimy : List ℚ) (hx : 2 ≤ ds.x.length) (hy : 2 ≤ ds.y.length)
    (hdx : 2 ≤ dimx.length) (hdy : 2 ≤ dimy.length) :
    ((ds.das.map fun da => da.dtype).dedup.length ≠ 1 →
      regrid kernel ds dimx dimy = .error .assertionError) ∧
    (∀ t, (∀ da ∈ ds.das, da.dtype = t) → ds.das ≠ [] →
      ∃ out, regrid kernel ds dimx dimy = .ok out ∧
        ∀ da ∈ out.das, da.dtype = t) := by
  have hxne : ds.x ≠ [] := by
    intro h0
    rw [h0] at hx
    simp at hx
  have hyne : ds.y ≠ [] := by
    intro h0
    rw [h0] at hy
    simp at hy
  obtain ⟨ds1, hmsw⟩ : ∃ d1, maybe_swap_spatial_dims ds = .ok d1 :=
    ⟨_, maybe_swap_eq_ok ds hxne hyne⟩
  obtain ⟨src, hsrc⟩ := _as_transform_is_ok ds1.x ds1.y
    (by rw [maybe_swap_ok_x_length ds ds1 hmsw]; exact hx)
    (by rw [maybe_swap_ok_y_length ds ds1 hmsw]; exact hy)
  obtain ⟨dst, hdst⟩ := _as_transform_is_ok dimx dimy hdx hdy
  constructor
  · intro hne1
    have hd : (ds1.das.map fun da => da.dtype).dedup.length ≠ 1 := by
      rw [maybe_swap_ok_dtypes ds ds1 hmsw]
      exact hne1
    simp only [regrid, hmsw, hsrc, hdst, if_neg hd]
  · intro t ht hne
    have hall : ∀ da ∈ ds1.das, da.dtype = t := by
      intro da hda
      have : da.dtype ∈ ds1.das.map fun d0 => d0.dtype :=
        List.mem_map_of_mem _ hda
      rw [maybe_swap_ok_dtypes ds ds1 hmsw] at this
      obtain ⟨da1, hda1, heq⟩ := List.mem_map.1 this
      rw [← heq, ht da1 hda1]
    have hne' : ds1.das ≠ [] := by
      intro hnil
      have := maybe_swap_ok_dtypes ds ds1 hmsw
      rw [hnil] at this
      cases hds : ds.das with
      | nil => exact hne hds
      | cons a rest => rw [hds] at this; simp at this
    have hdz : (ds1.das.map fun da => da.dtype).dedup = [t] :=
      map_dtype_dedup_const _ t hall hne'
    have hlen : (ds1.das.map fun da => da.dtype).dedup.length = 1 := by
      rw [hdz]; rfl
    refine ⟨⟨dimx, dimy, ds1.das.map fun da =>
      ⟨da.dtype, kernel da.vals (dimy.length, dimx.length)⟩⟩, ?_, ?_⟩
    · simp only [regrid, hmsw, hsrc, hdst, if_pos hlen]
    · intro da hda
      obtain ⟨da0, hda0, rfl⟩ := List.mem_map.1 hda
      exact hall da0 hda0

theorem regrid_dtype_homogeneity_witness :
    ∃ out, regrid (fun v _ => v)
        ⟨[0, 1], [0, 1], [⟨.float64, [[1, 2], [3, 4]]⟩]⟩ [0, 1] [0, 1] =
        .ok out ∧ ∀ da ∈ out.das, da.dtype = .float64 :=
  (regrid_dtype_homogeneity (fun v _ => v)
      ⟨[0, 1], [0, 1], [⟨.float64, [[1, 2], [3, 4]]⟩]⟩ [0, 1] [0, 1]
      (by simp) (by simp) (by simp) (by simp)).2 .float64
    (by intro da hda; simp at hda; rw [hda]) (by simp)

/-- Claim C3 (code evaluation at the failing input): on any cutout whose
CRS is geographic EPSG 4326 — here a 1°×1° grid cell at the equator —
`grid_cell_areas` raises `NameError`, because the spherical-cap
expression reads the name `dx`, which is bound neither in the function
nor at module level; the analytic area is never computed. -/
theorem grid_cell_areas_geographic_nameerror :
    grid_cell_areas id ⟨4326, [0], 1, [], (1, 1)⟩ = .error .nameError := rfl
